import Mathlib

/-!
Verification of the in-memory full-text search engine in `search_server.h`
(class `SearchServer`, helper `WordStorage`, global slot
`exception_pointer_in_parse_query_word`).

C++ `std::map`/inner maps are embedded as association lists (`AMap`) with
`find`-based semantics; `std::set<std::string_view>` members of `Query` are
embedded as `Finset String`; term frequencies (`double` ratios of word
counts) are embedded as exact rationals; relevance values (`double`,
computed with `std::log`) are embedded as real numbers.

Function bodies present in `search_server.h` (the template `ParseQuery`,
`MatchDocument`, `RemoveDocument`, `FindTopDocuments`, `Query::operator+=`)
are translated from the source.  Bodies that live in translation units not
in the repository snapshot (`AddDocument`, `FindAllDocuments`,
`ParseQueryWord`, `string_processing::SplitIntoWords`, `document.h`) are
modelled from the specification and carry a doc comment saying so.
-/

set_option autoImplicit false

namespace SearchSrv

/-! ## Association-list maps (embedding of `std::map`) -/

/-- Embedding of `std::map K V`: an association list queried by first match. -/
abbrev AMap (K V : Type) := List (K × V)

namespace AMap

variable {K V : Type} [DecidableEq K]

/-- Lookup of a key: the value of the first entry with that key. -/
def find (k : K) : AMap K V → Option V
  | [] => none
  | (k', v) :: m => if k' = k then some v else find k m

/-- Remove every entry with the given key (embedding of `map::erase`). -/
def eraseKey (k : K) : AMap K V → AMap K V
  | [] => []
  | (k', v) :: m => if k' = k then eraseKey k m else (k', v) :: eraseKey k m

/-- Insert-or-assign (embedding of `map::operator[] = v` / `insert`). -/
def insert (k : K) (v : V) (m : AMap K V) : AMap K V :=
  (k, v) :: eraseKey k m

/-- The list of keys in entry order. -/
def keys (m : AMap K V) : List K := m.map Prod.fst

@[simp] theorem find_nil (k : K) : find (V := V) k [] = none := rfl

@[simp] theorem find_cons (k k' : K) (v : V) (m : AMap K V) :
    find k ((k', v) :: m) = if k' = k then some v else find k m := rfl

@[simp] theorem eraseKey_nil (k : K) : eraseKey (V := V) k [] = [] := rfl

@[simp] theorem eraseKey_cons (k k' : K) (v : V) (m : AMap K V) :
    eraseKey k ((k', v) :: m) =
      if k' = k then eraseKey k m else (k', v) :: eraseKey k m := rfl

@[simp] theorem find_eraseKey_self (k : K) (m : AMap K V) :
    find k (eraseKey k m) = none := by
  induction m with
  | nil => rfl
  | cons p m ih =>
    obtain ⟨k', v⟩ := p
    by_cases h : k' = k
    · simp [h, ih]
    · simp [h, ih]

theorem find_eraseKey_ne (k k' : K) (m : AMap K V) (h : k' ≠ k) :
    find k' (eraseKey k m) = find k' m := by
  induction m with
  | nil => rfl
  | cons p m ih =>
    obtain ⟨k₀, v⟩ := p
    by_cases hk : k₀ = k
    · subst hk
      have : ¬ k₀ = k' := fun hh => h (hh ▸ rfl)
      simp [this, ih]
    · simp [hk, ih]

@[simp] theorem find_insert_self (k : K) (v : V) (m : AMap K V) :
    find k (insert k v m) = some v := by
  simp [insert]

theorem find_insert_ne (k k' : K) (v : V) (m : AMap K V) (h : k' ≠ k) :
    find k' (insert k v m) = find k' m := by
  have : ¬ k = k' := fun hh => h (hh ▸ rfl)
  simp [insert, this, find_eraseKey_ne k k' m h]

/-- A key of a nonempty association list with a successful first-entry lookup. -/
theorem find_head (k : K) (v : V) (m : AMap K V) :
    find k ((k, v) :: m) = some v := by simp

theorem find_isSome_of_mem_keys (k : K) (m : AMap K V) (h : k ∈ keys m) :
    (find k m).isSome := by
  induction m with
  | nil => simp [keys] at h
  | cons p m ih =>
    obtain ⟨k₀, v⟩ := p
    rcases List.mem_cons.mp h with h₀ | h₀
    · simp [keys] at h₀
      simp [h₀]
    · by_cases hk : k₀ = k
      · simp [hk]
      · simpa [hk] using ih h₀

theorem mem_keys_of_find (k : K) (v : V) (m : AMap K V) (h : find k m = some v) :
    k ∈ keys m := by
  induction m with
  | nil => simp [find] at h
  | cons p m ih =>
    obtain ⟨k₀, v₀⟩ := p
    by_cases hk : k₀ = k
    · simp [keys, hk]
    · simp only [find_cons, hk, if_false] at h
      exact List.mem_cons.mpr (Or.inr (ih h))

/-- Lookup in a map built from a duplicate-free key list by tabulating `f`. -/
theorem find_map_tabulate (f : K → V) (l : List K) (hl : l.Nodup) (k : K) :
    find k (l.map (fun x => (x, f x))) =
      if k ∈ l then some (f k) else none := by
  induction l with
  | nil => simp
  | cons a l ih =>
    have hnd := (List.nodup_cons.mp hl).2
    have hna := (List.nodup_cons.mp hl).1
    by_cases hk : a = k
    · subst hk
      simp
    · have : ¬ k = a := fun hh => hk (hh ▸ rfl)
      simp [hk, this, ih hnd]

end AMap

/-! ## Tokenizer and validator -/

/-- Modelled from the spec: `string_processing::SplitIntoWords` splits raw
text into maximal runs of non-whitespace characters; runs of whitespace
separate tokens and produce no empty tokens. -/
def splitAux : List Char → List Char → List String
  | [], acc => if acc = [] then [] else [String.mk acc.reverse]
  | c :: cs, acc =>
    if c.isWhitespace then
      if acc = [] then splitAux cs [] else String.mk acc.reverse :: splitAux cs []
    else splitAux cs (c :: acc)

/-- Modelled from the spec: tokenization on whitespace runs. -/
def splitIntoWords (text : String) : List String :=
  splitAux text.data []

/-- Modelled from the spec: `SearchServer::IsValidWord` — a word is valid iff
it contains no character with code point below 0x20. -/
def isValidWord (w : String) : Bool :=
  w.data.all (fun c => 32 ≤ c.toNat)

/-! ## Query parsing -/

/-- The error taxonomy of the spec (`std::invalid_argument` /
`std::out_of_range` in the source). -/
inductive ErrKind where
  | invalidWord : ErrKind
  | malformedQuery : ErrKind
  | unknownDocumentId : ErrKind
  deriving DecidableEq

/-- Modelled from the spec / `document.h` (not in the snapshot):
document status enumeration. -/
inductive DocumentStatus where
  | ACTUAL : DocumentStatus
  | IRRELEVANT : DocumentStatus
  | BANNED : DocumentStatus
  | REMOVED : DocumentStatus
  deriving DecidableEq

/-- `SearchServer::QueryWord` (declaration in the source). -/
structure QueryWord where
  data : String
  is_minus : Bool
  is_stop : Bool
  deriving DecidableEq

/-- `SearchServer::Query`: plus and minus word sets (`std::set` members). -/
structure Query where
  plus_words : Finset String
  minus_words : Finset String
  deriving DecidableEq

/-- `Query::operator+=` from the source: inserts the other query's plus words
into the plus set and its minus words into the minus set, i.e. set union. -/
def qcombine (a b : Query) : Query :=
  ⟨a.plus_words ∪ b.plus_words, a.minus_words ∪ b.minus_words⟩

/-- The value-initialised `Query{}` used as the reduction's identity. -/
def emptyQuery : Query := ⟨∅, ∅⟩

/-- Modelled from the spec: `SearchServer::ParseQueryWord` (body not in the
snapshot).  A leading `-` marks an exclusion word; an empty remainder or a
second `-` is a malformed query; the candidate word must contain no control
character; stop words are flagged after sign resolution. -/
def parseQueryWord (stop : Finset String) (w : String) : Except ErrKind QueryWord :=
  match w.data with
  | '-' :: rest =>
    if rest = [] then .error .malformedQuery
    else if rest.head? = some '-' then .error .malformedQuery
    else if isValidWord (String.mk rest) = false then .error .invalidWord
    else .ok ⟨String.mk rest, true, decide (String.mk rest ∈ stop)⟩
  | _ =>
    if isValidWord w = false then .error .invalidWord
    else .ok ⟨w, false, decide (w ∈ stop)⟩

/-- The `transform_word_in_query` unary op of `SearchServer::ParseQuery`:
a non-stop token contributes a one-word query, a stop token contributes the
empty query.  A token on which `ParseQueryWord` raises contributes the empty
query (the error travels through the global slot, modelled separately by
`tokenErr`). -/
def transformWordInQuery (stop : Finset String) (w : String) : Query :=
  match parseQueryWord stop w with
  | .error _ => emptyQuery
  | .ok qw =>
    if qw.is_stop then emptyQuery
    else if qw.is_minus then ⟨∅, {qw.data}⟩
    else ⟨{qw.data}, ∅⟩

/-- The error (if any) that `ParseQueryWord` stores in the global slot
`exception_pointer_in_parse_query_word` for one token. -/
def tokenErr (stop : Finset String) (w : String) : Option ErrKind :=
  match parseQueryWord stop w with
  | .error e => some e
  | .ok _ => none

/-- The strictly sequential left-to-right scan of `SearchServer::ParseQuery`
(`std::transform_reduce` with the sequential policy) over a token list. -/
def parseQueryTokens (stop : Finset String) (l : List String) : Query :=
  l.foldl (fun acc w => qcombine acc (transformWordInQuery stop w)) emptyQuery

/-- `SearchServer::ParseQuery` on raw text, sequential policy. -/
def parseQuery (stop : Finset String) (text : String) : Query :=
  parseQueryTokens stop (splitIntoWords text)

/-- The value of the global error slot after a sequential scan that starts
with slot value `slot`: each erroring token overwrites the slot. -/
def parseSlotTokens (stop : Finset String) (l : List String)
    (slot : Option ErrKind) : Option ErrKind :=
  l.foldl (fun sl w => match tokenErr stop w with | some e => some e | none => sl) slot

/-- The parse error (slot value) produced by scanning `text` from a clean slot. -/
def parseErr (stop : Finset String) (text : String) : Option ErrKind :=
  parseSlotTokens stop (splitIntoWords text) none

/-- A divide-and-combine reduction shape over the token sequence, as
`std::transform_reduce` with a parallel policy may group the tokens:
leaves are tokens, `emptyT` is an inserted identity (`Query{}`), and every
node combines two partial results with `Query::operator+=`. -/
inductive QTree where
  | emptyT : QTree
  | leaf : String → QTree
  | node : QTree → QTree → QTree

/-- The tokens of a reduction tree in left-to-right order. -/
def flattenT : QTree → List String
  | .emptyT => []
  | .leaf w => [w]
  | .node l r => flattenT l ++ flattenT r

/-- The result of the divide-and-combine reduction over a tree of tokens. -/
def reduceTree (stop : Finset String) : QTree → Query
  | .emptyT => emptyQuery
  | .leaf w => transformWordInQuery stop w
  | .node l r => qcombine (reduceTree stop l) (reduceTree stop r)

@[simp] theorem qcombine_empty_left (q : Query) : qcombine emptyQuery q = q := by
  cases q; simp [qcombine, emptyQuery]

@[simp] theorem qcombine_empty_right (q : Query) : qcombine q emptyQuery = q := by
  cases q; simp [qcombine, emptyQuery]

theorem qcombine_assoc (a b c : Query) :
    qcombine (qcombine a b) c = qcombine a (qcombine b c) := by
  simp [qcombine, Finset.union_assoc]

theorem qcombine_comm (a b : Query) : qcombine a b = qcombine b a := by
  simp [qcombine, Finset.union_comm]

theorem foldl_qcombine (stop : Finset String) (l : List String) (q : Query) :
    l.foldl (fun acc w => qcombine acc (transformWordInQuery stop w)) q =
      qcombine q (parseQueryTokens stop l) := by
  induction l generalizing q with
  | nil => simp [parseQueryTokens]
  | cons w l ih =>
    have h2 : parseQueryTokens stop (w :: l) =
        qcombine (transformWordInQuery stop w) (parseQueryTokens stop l) := by
      unfold parseQueryTokens
      rw [List.foldl_cons, ih, qcombine_empty_left]
      rfl
    rw [List.foldl_cons, ih, h2, qcombine_assoc]

theorem parseQueryTokens_cons (stop : Finset String) (w : String) (l : List String) :
    parseQueryTokens stop (w :: l) =
      qcombine (transformWordInQuery stop w) (parseQueryTokens stop l) := by
  simp only [parseQueryTokens, List.foldl_cons, qcombine_empty_left]
  exact foldl_qcombine stop l _

theorem parseQueryTokens_append (stop : Finset String) (l₁ l₂ : List String) :
    parseQueryTokens stop (l₁ ++ l₂) =
      qcombine (parseQueryTokens stop l₁) (parseQueryTokens stop l₂) := by
  simp only [parseQueryTokens, List.foldl_append]
  exact foldl_qcombine stop l₂ _

theorem parseQueryTokens_perm (stop : Finset String) (l₁ l₂ : List String)
    (h : l₁.Perm l₂) : parseQueryTokens stop l₁ = parseQueryTokens stop l₂ := by
  induction h with
  | nil => rfl
  | cons x _ ih => rw [parseQueryTokens_cons, parseQueryTokens_cons, ih]
  | swap x y l =>
    rw [parseQueryTokens_cons, parseQueryTokens_cons,
        parseQueryTokens_cons, parseQueryTokens_cons,
        ← qcombine_assoc, ← qcombine_assoc, qcombine_comm (transformWordInQuery stop y)]
  | trans _ _ ih₁ ih₂ => rw [ih₁, ih₂]

theorem reduceTree_eq_tokens (stop : Finset String) (t : QTree) :
    reduceTree stop t = parseQueryTokens stop (flattenT t) := by
  induction t with
  | emptyT => rfl
  | leaf w => simp [reduceTree, flattenT, parseQueryTokens]
  | node l r ihl ihr =>
    simp [reduceTree, flattenT, ihl, ihr, parseQueryTokens_append]

/-- C1: parsing a query with the parallel divide-and-combine reduction
produces exactly the same `Query` as the strictly sequential left-to-right
scan, and no permutation of the token processing order changes the result,
because the per-token merge `Query::operator+=` is a commutative,
associative set union. -/
theorem parseQuery_divide_and_combine (stop : Finset String) (text : String)
    (t : QTree) (h : flattenT t = splitIntoWords text) :
    reduceTree stop t = parseQuery stop text ∧
      ∀ l₁ l₂ : List String, l₁.Perm l₂ →
        parseQueryTokens stop l₁ = parseQueryTokens stop l₂ := by
  refine ⟨?_, fun l₁ l₂ hp => parseQueryTokens_perm stop l₁ l₂ hp⟩
  rw [reduceTree_eq_tokens, h, parseQuery]

/-- Witness for C1 at a concrete query text and a concrete reduction tree. -/
theorem parseQuery_divide_and_combine_witness :
    reduceTree ∅ (QTree.node (QTree.leaf "ab") (QTree.leaf "-cd")) =
        parseQuery ∅ "ab -cd" ∧
      parseQueryTokens ∅ ["ab", "-cd"] = parseQueryTokens ∅ ["-cd", "ab"] :=
  ⟨(parseQuery_divide_and_combine ∅ "ab -cd"
      (QTree.node (QTree.leaf "ab") (QTree.leaf "-cd")) (by decide)).1,
   (parseQuery_divide_and_combine ∅ "ab -cd"
      (QTree.node (QTree.leaf "ab") (QTree.leaf "-cd")) (by decide)).2
     ["ab", "-cd"] ["-cd", "ab"] (by decide)⟩

/-! ## Server state -/

/-- `SearchServer::DocumentData`: rating, status and the per-document
word-frequency map. -/
structure DocumentData where
  rating : Int
  status : DocumentStatus
  word_frequencies : AMap String ℚ
  deriving DecidableEq

/-- The state of a `SearchServer` instance together with the process-wide
error slot `exception_pointer_in_parse_query_word`. -/
structure Server where
  stop_words : Finset String
  /-- `words_storage_` (`WordStorage`): the set of interned words. -/
  words_storage : Finset String
  /-- `word_to_document_id_to_term_frequency_`. -/
  word_to_document_id_to_term_frequency : AMap String (AMap Int ℚ)
  /-- `document_id_to_document_data_`. -/
  document_id_to_document_data : AMap Int DocumentData
  document_ids : Finset Int
  /-- The global slot `exception_pointer_in_parse_query_word`. -/
  exception_slot : Option ErrKind
  deriving DecidableEq

/-- A freshly constructed `SearchServer` with a validated stop-word set (the
constructor throws on an invalid stop word, so no instance exists then). -/
def initServer (stop : Finset String) : Server :=
  ⟨stop, ∅, [], [], ∅, none⟩

/-- The row of the inverted index for a word (empty when absent). -/
def rowOf (s : Server) (w : String) : AMap Int ℚ :=
  (AMap.find w s.word_to_document_id_to_term_frequency).getD []

/-- `SearchServer::GetDocumentCount`. -/
def getDocumentCount (s : Server) : Nat :=
  s.document_id_to_document_data.length

/-- `SearchServer::GetWordFrequencies`: the document's word-frequency map, or
an empty map for an unknown id. -/
def getWordFrequencies (s : Server) (id : Int) : AMap String ℚ :=
  (AMap.find id s.document_id_to_document_data).elim [] (fun dd => dd.word_frequencies)

/-- Modelled from the spec: `SearchServer::ComputeAverageRating` (body not in
the snapshot) — integer mean truncated toward zero, `0` for an empty list. -/
def computeAverageRating (ratings : List Int) : Int :=
  if ratings.length = 0 then 0 else Int.tdiv ratings.sum (ratings.length : Int)

/-- Modelled from the spec: `SearchServer::SplitIntoWordsNoStop` — tokenize,
then drop stop words. -/
def splitIntoWordsNoStop (stop : Finset String) (text : String) : List String :=
  (splitIntoWords text).filter (fun w => decide (w ∉ stop))

/-- The word-frequency map of a document with surviving word list `ws`:
`count(word) / total_survived_count`. -/
def termFrequencies (ws : List String) : AMap String ℚ :=
  ws.dedup.map (fun w => (w, (ws.count w : ℚ) / (ws.length : ℚ)))

/-- Modelled from the spec: `SearchServer::AddDocument` (body not in the
snapshot).  Fails without mutation on a duplicate id or an invalid token;
otherwise interns the surviving words, stores the document data and updates
the inverted index. -/
def addDocument (s : Server) (id : Int) (text : String) (st : DocumentStatus)
    (ratings : List Int) : Bool × Server :=
  if (AMap.find id s.document_id_to_document_data).isSome then (false, s)
  else if (splitIntoWords text).any (fun w => !(isValidWord w)) then (false, s)
  else
    let ws := splitIntoWordsNoStop s.stop_words text
    (true, { s with
      words_storage := s.words_storage ∪ ws.toFinset,
      word_to_document_id_to_term_frequency :=
        ws.dedup.foldl (fun ix w =>
          AMap.insert w
            (AMap.insert id ((ws.count w : ℚ) / (ws.length : ℚ))
              ((AMap.find w ix).getD [])) ix)
          s.word_to_document_id_to_term_frequency,
      document_id_to_document_data :=
        AMap.insert id ⟨computeAverageRating ratings, st, termFrequencies ws⟩
          s.document_id_to_document_data,
      document_ids := insert id s.document_ids })

/-- Erase the removed document's entry from one (optional) index row and
prune the row when it becomes empty. -/
def pruneErase (id : Int) : Option (AMap Int ℚ) → Option (AMap Int ℚ)
  | none => none
  | some row =>
    if AMap.eraseKey id row = [] then none else some (AMap.eraseKey id row)

/-- One word's cleanup step of `SearchServer::RemoveDocument`: erase the
document from the word's row, and delete the row if it became empty.  A word
missing from the index is skipped (the source's `map::at` would throw there;
the state invariant makes it unreachable). -/
def removeWordStep (id : Int) (ix : AMap String (AMap Int ℚ)) (w : String) :
    AMap String (AMap Int ℚ) :=
  match AMap.find w ix with
  | none => ix
  | some row =>
    if AMap.eraseKey id row = [] then AMap.eraseKey w ix
    else AMap.insert w (AMap.eraseKey id row) ix

/-- `SearchServer::RemoveDocument` from the source (both execution policies
produce this result): no-op on an unknown id; otherwise per-word cleanup of
the inverted index, then removal from the document store and the id set. -/
def removeDocument (s : Server) (id : Int) : Server :=
  match AMap.find id s.document_id_to_document_data with
  | none => s
  | some dd =>
    { s with
      word_to_document_id_to_term_frequency :=
        (AMap.keys dd.word_frequencies).foldl (removeWordStep id)
          s.word_to_document_id_to_term_frequency,
      document_id_to_document_data :=
        AMap.eraseKey id s.document_id_to_document_data,
      document_ids := s.document_ids.erase id }

/-- `SearchServer::MatchDocument` from the source: parse the query, rethrow
and clear a stored parse error, collect the plus words present in the
document (in set order), clear them if a minus word is present, and read the
document's status (`map::at` raises for an unknown id). -/
def matchDocument (s : Server) (raw_query : String) (id : Int) :
    Except ErrKind (List String × DocumentStatus) × Server :=
  match parseSlotTokens s.stop_words (splitIntoWords raw_query) s.exception_slot with
  | some e => (.error e, { s with exception_slot := none })
  | none =>
    let query := parseQuery s.stop_words raw_query
    let matched := (query.plus_words.sort (· ≤ ·)).filter
      (fun w => (AMap.find id (rowOf s w)).isSome)
    let matched2 :=
      if decide (∃ w ∈ query.minus_words, (AMap.find id (rowOf s w)).isSome = true)
      then ([] : List String) else matched
    match AMap.find id s.document_id_to_document_data with
    | none => (.error .unknownDocumentId, { s with exception_slot := none })
    | some dd => (.ok (matched2, dd.status), { s with exception_slot := none })

/-! ## Ranking -/

/-- Insert an element into a list in front of the first element it beats
under `cmp` (the comparison-sort building block used to embed `std::sort`). -/
def insertSorted {α : Type} (cmp : α → α → Bool) (x : α) : List α → List α
  | [] => [x]
  | y :: ys => if cmp x y then x :: y :: ys else y :: insertSorted cmp x ys

/-- Comparison sort by repeated insertion (embedding of `std::sort`; the
source's comparator is not a strict weak ordering, so the C++ algorithm is
unspecified there — this is one concrete comparison sort). -/
def sortByCmp {α : Type} (cmp : α → α → Bool) : List α → List α
  | [] => []
  | x :: xs => insertSorted cmp x (sortByCmp cmp xs)

/-- `Document` from `document.h` (not in the snapshot): id, relevance,
rating, as returned by `FindTopDocuments`. -/
structure Document where
  id : Int
  relevance : ℝ
  rating : Int

/-- `SearchServer::kMaxResultDocumentCount`. -/
def kMaxResultDocumentCount : Nat := 5

/-- `SearchServer::kAccuracy` (`1e-6`), kept as an exact rational. -/
def kAccuracy : ℚ := 1 / 1000000

/-- Modelled from the spec: `ComputeWordInverseDocumentFrequency` (body not
in the snapshot) — `ln(total_live_documents / documents_containing_word)`. -/
noncomputable def computeWordInverseDocumentFrequency (s : Server) (w : String) : ℝ :=
  Real.log ((getDocumentCount s : ℝ) / ((rowOf s w).length : ℝ))

/-- The plus words of a query that are present in the inverted index (the
ranker skips absent words). -/
def plusPresent (s : Server) (q : Query) : Finset String :=
  q.plus_words.filter (fun w =>
    (AMap.find w s.word_to_document_id_to_term_frequency).isSome = true)

/-- Modelled from the spec: the relevance accumulated for one document id by
`FindAllDocuments` — the sum over the plus words present in the index of
`idf(word) * tf(word, document)`, with no contribution when the row lacks
the document. -/
noncomputable def relevanceOf (s : Server) (q : Query) (id : Int) : ℝ :=
  Finset.sum (plusPresent s q) (fun w =>
    match AMap.find id (rowOf s w) with
    | some tf => computeWordInverseDocumentFrequency s w * (tf : ℝ)
    | none => 0)

/-- Every document id mentioned in some inverted-index row. -/
def candidateIds (s : Server) : List Int :=
  ((s.word_to_document_id_to_term_frequency.map (fun p => AMap.keys p.2)).flatten).dedup

/-- The ids `FindAllDocuments` returns: ids matching some plus word, minus
the ids under any minus word, in ascending order (the source accumulates
them in a `std::map` keyed by id). -/
def resultIdList (s : Server) (q : Query) : List Int :=
  sortByCmp (fun a b => decide (a ≤ b))
    ((candidateIds s).filter (fun id =>
      decide (∃ w ∈ q.plus_words, (AMap.find id (rowOf s w)).isSome = true) &&
      !(decide (∃ w ∈ q.minus_words, (AMap.find id (rowOf s w)).isSome = true))))

/-- The rating stored for a document id (`0` for an unknown id). -/
def ratingOf (s : Server) (id : Int) : Int :=
  (AMap.find id s.document_id_to_document_data).elim 0 (fun dd => dd.rating)

/-- Modelled from the spec: `SearchServer::FindAllDocuments` (body not in the
snapshot) — the scored, unfiltered result set as `(id, relevance, rating)`
records. -/
noncomputable def findAllDocuments (s : Server) (q : Query) : List Document :=
  (resultIdList s q).map (fun id => ⟨id, relevanceOf s q id, ratingOf s id⟩)

open Classical in
/-- The sort comparator of `SearchServer::FindTopDocuments` from the source:
relevance descending, with rating descending when the relevance difference
is below `kAccuracy`. -/
noncomputable def docCmp (l r : Document) : Bool :=
  if |l.relevance - r.relevance| < (kAccuracy : ℝ) then decide (r.rating < l.rating)
  else decide (r.relevance < l.relevance)

/-- `SearchServer::FindTopDocuments` (predicate overload) from the source:
parse sequentially, rethrow and clear a stored parse error, score, filter by
the predicate over `(id, status, rating)` read from the document store, sort
with `docCmp`, truncate to `kMaxResultDocumentCount`. -/
noncomputable def findTopDocuments (s : Server) (raw_query : String)
    (pred : Int → DocumentStatus → Int → Bool) :
    Except ErrKind (List Document) × Server :=
  match parseSlotTokens s.stop_words (splitIntoWords raw_query) s.exception_slot with
  | some e => (.error e, { s with exception_slot := none })
  | none =>
    let query := parseQuery s.stop_words raw_query
    let filtered := (findAllDocuments s query).filter (fun d =>
      (AMap.find d.id s.document_id_to_document_data).elim false
        (fun dd => pred d.id dd.status dd.rating))
    (.ok ((sortByCmp docCmp filtered).take kMaxResultDocumentCount),
      { s with exception_slot := none })

/-! ## Removal lemmas -/

theorem AMap.eraseKey_idem {K V : Type} [DecidableEq K] (k : K) (m : AMap K V) :
    AMap.eraseKey k (AMap.eraseKey k m) = AMap.eraseKey k m := by
  induction m with
  | nil => rfl
  | cons p m ih =>
    obtain ⟨k₀, v⟩ := p
    by_cases h : k₀ = k
    · simp [h, ih]
    · simp [h, ih]

theorem find_removeWordStep (id : Int) (ix : AMap String (AMap Int ℚ))
    (w u : String) :
    AMap.find u (removeWordStep id ix w) =
      if u = w then pruneErase id (AMap.find u ix) else AMap.find u ix := by
  by_cases huw : u = w
  · subst huw
    unfold removeWordStep
    cases hfind : AMap.find u ix with
    | none => simp [pruneErase, hfind]
    | some row =>
      by_cases hrow : AMap.eraseKey id row = []
      · simp [hrow, pruneErase, hfind]
      · simp [hrow, pruneErase, hfind]
  · unfold removeWordStep
    cases hfind : AMap.find w ix with
    | none => simp [huw]
    | some row =>
      by_cases hrow : AMap.eraseKey id row = []
      · simp [hrow, huw, AMap.find_eraseKey_ne w u ix huw]
      · simp [hrow, huw, AMap.find_insert_ne w u _ ix huw]

theorem pruneErase_idem (id : Int) (o : Option (AMap Int ℚ)) :
    pruneErase id (pruneErase id o) = pruneErase id o := by
  cases o with
  | none => rfl
  | some row =>
    unfold pruneErase
    by_cases hrow : AMap.eraseKey id row = []
    · simp [hrow]
    · simp [hrow, AMap.eraseKey_idem]

theorem find_removeFold (id : Int) (ws : List String)
    (ix : AMap String (AMap Int ℚ)) (u : String) :
    AMap.find u (ws.foldl (removeWordStep id) ix) =
      if u ∈ ws then pruneErase id (AMap.find u ix) else AMap.find u ix := by
  induction ws generalizing ix with
  | nil => simp
  | cons w ws ih =>
    rw [List.foldl_cons, ih]
    rw [find_removeWordStep]
    by_cases huw : u = w
    · subst huw
      by_cases hmem : u ∈ ws
      · simp [hmem, pruneErase_idem]
      · simp [hmem]
    · by_cases hmem : u ∈ ws
      · simp [hmem, huw]
      · simp [hmem, huw]

theorem pruneErase_bind_ne (id j : Int) (o : Option (AMap Int ℚ)) (h : j ≠ id) :
    (pruneErase id o).bind (AMap.find j) = o.bind (AMap.find j) := by
  cases o with
  | none => rfl
  | some row =>
    unfold pruneErase
    by_cases hrow : AMap.eraseKey id row = []
    · have h1 : AMap.find j (AMap.eraseKey id row) = AMap.find j row :=
        AMap.find_eraseKey_ne id j row h
      simp only [hrow, if_true]
      rw [hrow] at h1
      simp [← h1]
    · simp [hrow, AMap.find_eraseKey_ne id j row h]

/-- C10: removing one document leaves every other document's state fully
unchanged — its document store entry (status, rating, word-frequency map),
its membership in the document-id set, and every inverted-index
term-frequency entry keyed by it. -/
theorem removeDocument_frame (s : Server) (id j : Int) (h : j ≠ id) :
    AMap.find j (removeDocument s id).document_id_to_document_data =
        AMap.find j s.document_id_to_document_data ∧
      (j ∈ (removeDocument s id).document_ids ↔ j ∈ s.document_ids) ∧
      ∀ w : String,
        (AMap.find w
            (removeDocument s id).word_to_document_id_to_term_frequency).bind
            (AMap.find j) =
          (AMap.find w s.word_to_document_id_to_term_frequency).bind
            (AMap.find j) := by
  unfold removeDocument
  cases hfind : AMap.find id s.document_id_to_document_data with
  | none => exact ⟨rfl, Iff.rfl, fun w => rfl⟩
  | some dd =>
    refine ⟨AMap.find_eraseKey_ne id j _ h, ?_, ?_⟩
    · simp only [Finset.mem_erase]
      exact ⟨fun hh => hh.2, fun hh => ⟨h, hh⟩⟩
    · intro w
      rw [find_removeFold]
      by_cases hmem : w ∈ AMap.keys dd.word_frequencies
      · simp only [hmem, if_true]
        exact pruneErase_bind_ne id j _ h
      · simp [hmem]

/-- Witness for C10 at a concrete server and a concrete pair of ids. -/
theorem removeDocument_frame_witness :
    AMap.find 1 (removeDocument (initServer ∅) 0).document_id_to_document_data =
        AMap.find 1 (initServer ∅).document_id_to_document_data ∧
      (AMap.find "a"
          (removeDocument (initServer ∅) 0).word_to_document_id_to_term_frequency).bind
          (AMap.find 1) =
        (AMap.find "a" (initServer ∅).word_to_document_id_to_term_frequency).bind
          (AMap.find 1) :=
  ⟨(removeDocument_frame (initServer ∅) 0 1 (by decide)).1,
   (removeDocument_frame (initServer ∅) 0 1 (by decide)).2.2 "a"⟩

theorem removeDocument_unknown (s : Server) (id : Int)
    (h : AMap.find id s.document_id_to_document_data = none) :
    removeDocument s id = s := by
  unfold removeDocument
  rw [h]

theorem removeDocument_docs_some (s : Server) (id : Int) (dd : DocumentData)
    (h : AMap.find id s.document_id_to_document_data = some dd) :
    (removeDocument s id).document_id_to_document_data =
      AMap.eraseKey id s.document_id_to_document_data := by
  unfold removeDocument
  rw [h]

/-- C9: `RemoveDocument` is idempotent — a second call on the same id is a
no-op, and a call on an unknown id changes no state and raises no error. -/
theorem removeDocument_idempotent (s : Server) (id : Int) :
    removeDocument (removeDocument s id) id = removeDocument s id ∧
      (AMap.find id s.document_id_to_document_data = none →
        removeDocument s id = s) := by
  refine ⟨?_, removeDocument_unknown s id⟩
  cases hfind : AMap.find id s.document_id_to_document_data with
  | none =>
    have hs := removeDocument_unknown s id hfind
    rw [hs]
    exact hs
  | some dd =>
    have hgone : AMap.find id
        (removeDocument s id).document_id_to_document_data = none := by
      rw [removeDocument_docs_some s id dd hfind]
      exact AMap.find_eraseKey_self id _
    exact removeDocument_unknown _ id hgone

/-- Witness for C9 at a concrete server and id that is unknown. -/
theorem removeDocument_idempotent_witness :
    removeDocument (initServer ∅) 0 = initServer ∅ :=
  (removeDocument_idempotent (initServer ∅) 0).2 rfl

/-! ## Error-slot behaviour -/

theorem clearSlot_eq_self (s : Server) (h : s.exception_slot = none) :
    { s with exception_slot := none } = s := by
  cases s
  simp_all

theorem findTopDocuments_state (s : Server) (q : String)
    (p : Int → DocumentStatus → Int → Bool) :
    (findTopDocuments s q p).2 = { s with exception_slot := none } := by
  unfold findTopDocuments
  cases parseSlotTokens s.stop_words (splitIntoWords q) s.exception_slot with
  | none => rfl
  | some e => rfl

theorem matchDocument_state (s : Server) (q : String) (id : Int) :
    (matchDocument s q id).2 = { s with exception_slot := none } := by
  unfold matchDocument
  cases parseSlotTokens s.stop_words (splitIntoWords q) s.exception_slot with
  | none =>
    cases AMap.find id s.document_id_to_document_data with
    | none => rfl
    | some dd => rfl
  | some e => rfl

theorem findTopDocuments_error_iff (s : Server) (q : String)
    (p : Int → DocumentStatus → Int → Bool) (h : s.exception_slot = none)
    (e : ErrKind) :
    (findTopDocuments s q p).1 = .error e ↔ parseErr s.stop_words q = some e := by
  have hscrut : parseSlotTokens s.stop_words (splitIntoWords q) s.exception_slot =
      parseErr s.stop_words q := by
    rw [h]
    rfl
  unfold findTopDocuments
  rw [hscrut]
  cases hpe : parseErr s.stop_words q with
  | none =>
    constructor
    · intro hh
      exact absurd hh (by simp)
    · intro hh
      exact absurd hh (by simp)
  | some e₀ =>
    constructor
    · intro hh
      simp only [Except.error.injEq] at hh
      rw [hh]
    · intro hh
      simp only [Option.some.injEq] at hh
      rw [hh]

/-- C2: each call's error outcome is self-contained — after any
`FindTopDocuments` or `MatchDocument` call the server state (including the
global error slot) is exactly as before, the error a call returns is exactly
the parse error of its own query, and a subsequent unrelated call returns
the same outcome as if the earlier call had never happened. -/
theorem error_outcome_self_contained (s : Server) (q1 q2 : String)
    (p1 p2 : Int → DocumentStatus → Int → Bool) (id : Int)
    (h : s.exception_slot = none) :
    (findTopDocuments s q1 p1).2 = s ∧
      (matchDocument s q1 id).2 = s ∧
      (∀ e, (findTopDocuments s q1 p1).1 = .error e ↔
        parseErr s.stop_words q1 = some e) ∧
      (∀ e, parseErr s.stop_words q1 = some e →
        (matchDocument s q1 id).1 = .error e) ∧
      (findTopDocuments (findTopDocuments s q1 p1).2 q2 p2).1 =
        (findTopDocuments s q2 p2).1 ∧
      (findTopDocuments (matchDocument s q1 id).2 q2 p2).1 =
        (findTopDocuments s q2 p2).1 := by
  have hftd : (findTopDocuments s q1 p1).2 = s := by
    rw [findTopDocuments_state]
    exact clearSlot_eq_self s h
  have hmd : (matchDocument s q1 id).2 = s := by
    rw [matchDocument_state]
    exact clearSlot_eq_self s h
  refine ⟨hftd, hmd, findTopDocuments_error_iff s q1 p1 h, ?_, ?_, ?_⟩
  · intro e he
    have hscrut : parseSlotTokens s.stop_words (splitIntoWords q1)
        s.exception_slot = some e := by
      rw [h]
      exact he
    unfold matchDocument
    rw [hscrut]
  · rw [hftd]
  · rw [hmd]

/-- Witness for C2: a malformed query's error is returned to its own caller
from a clean-slot state. -/
theorem error_outcome_self_contained_witness :
    (findTopDocuments (initServer ∅) "--x" (fun _ _ _ => true)).1 =
      Except.error ErrKind.malformedQuery :=
  ((error_outcome_self_contained (initServer ∅) "--x" "y"
      (fun _ _ _ => true) (fun _ _ _ => true) 0 rfl).2.2.1
    ErrKind.malformedQuery).mpr (by decide)

/-- C6 amended: for every query text that parses without error and every id
not present in the document store, `MatchDocument` fails with
`UnknownDocumentId`.  (For a query text that fails to parse, the parse error
is reported instead — see the counterexample.) -/
theorem matchDocument_unknown_id (s : Server) (q : String) (id : Int)
    (hslot : s.exception_slot = none)
    (hq : parseErr s.stop_words q = none)
    (hid : AMap.find id s.document_id_to_document_data = none) :
    (matchDocument s q id).1 = .error .unknownDocumentId := by
  have hscrut : parseSlotTokens s.stop_words (splitIntoWords q)
      s.exception_slot = none := by
    rw [hslot]
    exact hq
  unfold matchDocument
  rw [hscrut, hid]

/-- Witness for the amended C6 at a concrete clean query and unknown id. -/
theorem matchDocument_unknown_id_witness :
    (matchDocument (initServer ∅) "a" 0).1 = .error .unknownDocumentId :=
  matchDocument_unknown_id (initServer ∅) "a" 0 rfl (by decide) rfl

/-- Counterexample to C6 as stated: for the query text `"--x"` and the
unknown id `0`, `MatchDocument` fails with `MalformedQuery`, not
`UnknownDocumentId`. -/
theorem matchDocument_unknown_id_counterexample :
    AMap.find 0 (initServer ∅).document_id_to_document_data = none ∧
      (matchDocument (initServer ∅) "--x" 0).1 =
        Except.error ErrKind.malformedQuery ∧
      ErrKind.malformedQuery ≠ ErrKind.unknownDocumentId := by
  refine ⟨rfl, rfl, by decide⟩

/-! ## Query grammar properties -/

/-- Counterexample to C7 as stated: the query text `"a -a"` is accepted
(no parse error), yet the word `"a"` ends up in both the plus-word set and
the minus-word set — the grammar does not make the two sets disjoint. -/
theorem query_disjointness_counterexample :
    parseErr ∅ "a -a" = none ∧
      "a" ∈ (parseQuery ∅ "a -a").plus_words ∧
      "a" ∈ (parseQuery ∅ "a -a").minus_words := by
  decide

/-- C7 amended: each single token contributes to at most one of the two
sets (never both), but the plus and minus sets of an accepted query need
not be disjoint, because the same word may occur both bare and negated as
two different tokens. -/
theorem parseQueryWord_exclusive (stop : Finset String) (w : String) :
    (transformWordInQuery stop w).plus_words = ∅ ∨
      (transformWordInQuery stop w).minus_words = ∅ := by
  unfold transformWordInQuery
  cases parseQueryWord stop w with
  | error e => exact Or.inl rfl
  | ok qw =>
    by_cases hs : qw.is_stop
    · exact Or.inl (by simp [hs, emptyQuery])
    · by_cases hm : qw.is_minus
      · exact Or.inl (by simp [hs, hm])
      · exact Or.inr (by simp [hs, hm])

/-! ## AddDocument -/

/-- C5: `AddDocument` fails exactly when the id already exists or some token
is invalid; a failing call performs no mutation at all; a successful call
stores the document data and registers the id. -/
theorem addDocument_atomic (s : Server) (id : Int) (text : String)
    (st : DocumentStatus) (ratings : List Int) :
    ((addDocument s id text st ratings).1 = false ↔
      (AMap.find id s.document_id_to_document_data).isSome = true ∨
        ∃ w ∈ splitIntoWords text, isValidWord w = false) ∧
      ((addDocument s id text st ratings).1 = false →
        (addDocument s id text st ratings).2 = s) ∧
      ((addDocument s id text st ratings).1 = true →
        AMap.find id
            (addDocument s id text st ratings).2.document_id_to_document_data =
          some ⟨computeAverageRating ratings, st,
            termFrequencies (splitIntoWordsNoStop s.stop_words text)⟩ ∧
        id ∈ (addDocument s id text st ratings).2.document_ids) := by
  have hany : ((splitIntoWords text).any (fun w => !(isValidWord w)) = true) ↔
      ∃ w ∈ splitIntoWords text, isValidWord w = false := by
    rw [List.any_eq_true]
    constructor
    · rintro ⟨w, hw, hv⟩
      exact ⟨w, hw, Bool.not_eq_true' .. |>.mp hv⟩
    · rintro ⟨w, hw, hv⟩
      exact ⟨w, hw, Bool.not_eq_true' .. |>.mpr hv⟩
  by_cases h1 : (AMap.find id s.document_id_to_document_data).isSome = true
  · refine ⟨⟨fun _ => Or.inl h1, fun _ => ?_⟩, fun _ => ?_, fun hT => ?_⟩
    · simp [addDocument, h1]
    · simp [addDocument, h1]
    · exact absurd hT (by simp [addDocument, h1])
  · by_cases h2 : (splitIntoWords text).any (fun w => !(isValidWord w)) = true
    · refine ⟨⟨fun _ => Or.inr (hany.mp h2), fun _ => ?_⟩, fun _ => ?_, fun hT => ?_⟩
      · simp [addDocument, h1, h2]
      · simp [addDocument, h1, h2]
      · exact absurd hT (by simp [addDocument, h1, h2])
    · have hres1 : (addDocument s id text st ratings).1 = true := by
        simp [addDocument, h1, h2]
      refine ⟨⟨fun hF => absurd hres1 (by rw [hF]; simp), fun hor => ?_⟩,
        fun hF => absurd hres1 (by rw [hF]; simp), fun _ => ⟨?_, ?_⟩⟩
      · rcases hor with hd | he
        · exact absurd hd h1
        · exact absurd (hany.mpr he) h2
      · have : (addDocument s id text st ratings).2.document_id_to_document_data =
            AMap.insert id ⟨computeAverageRating ratings, st,
              termFrequencies (splitIntoWordsNoStop s.stop_words text)⟩
              s.document_id_to_document_data := by
          simp [addDocument, h1, h2]
        rw [this, AMap.find_insert_self]
      · have : (addDocument s id text st ratings).2.document_ids =
            insert id s.document_ids := by
          simp [addDocument, h1, h2]
        rw [this]
        exact Finset.mem_insert_self id s.document_ids

/-- Witness for C5: adding a token with a control character fails and the
state is exactly the prior state. -/
theorem addDocument_atomic_witness :
    (addDocument (initServer ∅) 0 "\x01" DocumentStatus.ACTUAL []).2 =
      initServer ∅ :=
  (addDocument_atomic (initServer ∅) 0 "\x01" DocumentStatus.ACTUAL []).2.1
    (by decide)

/-! ## The index/document-store correspondence invariant -/

/-- The term frequency recorded in the inverted index for `(word, id)`. -/
def optTf (s : Server) (w : String) (id : Int) : Option ℚ :=
  (AMap.find w s.word_to_document_id_to_term_frequency).bind (AMap.find id)

/-- The term frequency recorded in the document store for `(id, word)`. -/
def docWf (s : Server) (id : Int) (w : String) : Option ℚ :=
  (AMap.find id s.document_id_to_document_data).bind
    (fun dd => AMap.find w dd.word_frequencies)

/-- The state invariant: the inverted index and the per-document
word-frequency maps record exactly the same `(word, document, tf)` triples,
and no index row is empty. -/
def Inv (s : Server) : Prop :=
  (∀ w id, optTf s w id = docWf s id w) ∧
    ∀ w row, AMap.find w s.word_to_document_id_to_term_frequency = some row →
      row ≠ []

theorem find_addFold (id : Int) (tf : String → ℚ) (ws : List String)
    (ix : AMap String (AMap Int ℚ)) (hnd : ws.Nodup) (u : String) :
    AMap.find u (ws.foldl (fun ixx w =>
        AMap.insert w (AMap.insert id (tf w) ((AMap.find w ixx).getD [])) ixx) ix) =
      if u ∈ ws then some (AMap.insert id (tf u) ((AMap.find u ix).getD []))
      else AMap.find u ix := by
  induction ws generalizing ix with
  | nil => simp
  | cons w ws ih =>
    have hw : w ∉ ws := (List.nodup_cons.mp hnd).1
    have hnd' : ws.Nodup := (List.nodup_cons.mp hnd).2
    rw [List.foldl_cons, ih _ hnd']
    by_cases huw : u = w
    · subst huw
      simp [hw, AMap.find_insert_self]
    · by_cases hmem : u ∈ ws
      · simp [hmem, huw, AMap.find_insert_ne w u _ ix huw]
      · simp [hmem, huw, AMap.find_insert_ne w u _ ix huw]

theorem find_termFrequencies (ws : List String) (u : String) :
    AMap.find u (termFrequencies ws) =
      if u ∈ ws.dedup then some ((ws.count u : ℚ) / (ws.length : ℚ)) else none :=
  AMap.find_map_tabulate (fun w => (ws.count w : ℚ) / (ws.length : ℚ))
    ws.dedup (List.nodup_dedup ws) u

theorem addDocument_success_parts (s : Server) (id : Int) (text : String)
    (st : DocumentStatus) (ratings : List Int)
    (h1 : ¬ (AMap.find id s.document_id_to_document_data).isSome = true)
    (h2 : ¬ (splitIntoWords text).any (fun w => !(isValidWord w)) = true) :
    (addDocument s id text st ratings).2.word_to_document_id_to_term_frequency =
        ((splitIntoWordsNoStop s.stop_words text).dedup.foldl (fun ixx w =>
          AMap.insert w
            (AMap.insert id
              (((splitIntoWordsNoStop s.stop_words text).count w : ℚ) /
                ((splitIntoWordsNoStop s.stop_words text).length : ℚ))
              ((AMap.find w ixx).getD [])) ixx)
          s.word_to_document_id_to_term_frequency) ∧
      (addDocument s id text st ratings).2.document_id_to_document_data =
        AMap.insert id ⟨computeAverageRating ratings, st,
          termFrequencies (splitIntoWordsNoStop s.stop_words text)⟩
          s.document_id_to_document_data := by
  constructor
  · simp [addDocument, h1, h2]
  · simp [addDocument, h1, h2]

@[simp] theorem pruneErase_none (id : Int) : pruneErase id none = none := rfl

theorem pruneErase_some (id : Int) (row : AMap Int ℚ) :
    pruneErase id (some row) =
      if AMap.eraseKey id row = [] then none
      else some (AMap.eraseKey id row) := rfl

theorem inv_preserved_add (s : Server) (id : Int) (text : String)
    (st : DocumentStatus) (ratings : List Int) (hI : Inv s) :
    Inv (addDocument s id text st ratings).2 := by
  by_cases h1 : (AMap.find id s.document_id_to_document_data).isSome = true
  · have hs : (addDocument s id text st ratings).2 = s := by
      simp [addDocument, h1]
    rw [hs]
    exact hI
  · by_cases h2 : (splitIntoWords text).any (fun w => !(isValidWord w)) = true
    · have hs : (addDocument s id text st ratings).2 = s := by
        simp [addDocument, h1, h2]
      rw [hs]
      exact hI
    · obtain ⟨hix, hdocs⟩ := addDocument_success_parts s id text st ratings h1 h2
      have hidnone : AMap.find id s.document_id_to_document_data = none :=
        Option.not_isSome_iff_eq_none.mp h1
      constructor
      · intro u j
        unfold optTf docWf
        rw [hix, hdocs, find_addFold _ _ _ _ (List.nodup_dedup _) u]
        by_cases hu : u ∈ (splitIntoWordsNoStop s.stop_words text).dedup
        · rw [if_pos hu]
          simp only [Option.some_bind]
          by_cases hj : j = id
          · subst hj
            rw [AMap.find_insert_self, AMap.find_insert_self]
            simp only [Option.some_bind]
            rw [find_termFrequencies, if_pos hu]
          · rw [AMap.find_insert_ne id j _ _ hj, AMap.find_insert_ne id j _ _ hj]
            have hold := hI.1 u j
            unfold optTf docWf at hold
            rw [← hold]
            cases hru : AMap.find u s.word_to_document_id_to_term_frequency with
            | none => simp
            | some row => simp
        · rw [if_neg hu]
          by_cases hj : j = id
          · subst hj
            rw [AMap.find_insert_self]
            simp only [Option.some_bind]
            rw [find_termFrequencies, if_neg hu]
            have hold := hI.1 u j
            unfold optTf docWf at hold
            rw [hidnone] at hold
            simp only [Option.none_bind] at hold
            exact hold
          · rw [AMap.find_insert_ne id j _ _ hj]
            exact hI.1 u j
      · intro u row hrow
        rw [hix, find_addFold _ _ _ _ (List.nodup_dedup _) u] at hrow
        by_cases hu : u ∈ (splitIntoWordsNoStop s.stop_words text).dedup
        · rw [if_pos hu] at hrow
          cases hrow
          simp [AMap.insert]
        · rw [if_neg hu] at hrow
          exact hI.2 u row hrow

theorem inv_preserved_remove (s : Server) (id : Int) (hI : Inv s) :
    Inv (removeDocument s id) := by
  cases hfind : AMap.find id s.document_id_to_document_data with
  | none =>
    rw [removeDocument_unknown s id hfind]
    exact hI
  | some dd =>
    have hix : (removeDocument s id).word_to_document_id_to_term_frequency =
        (AMap.keys dd.word_frequencies).foldl (removeWordStep id)
          s.word_to_document_id_to_term_frequency := by
      unfold removeDocument
      rw [hfind]
    have hdocs := removeDocument_docs_some s id dd hfind
    constructor
    · intro u j
      unfold optTf docWf
      rw [hix, hdocs, find_removeFold]
      by_cases hj : j = id
      · subst hj
        rw [AMap.find_eraseKey_self]
        simp only [Option.none_bind]
        by_cases hu : u ∈ AMap.keys dd.word_frequencies
        · rw [if_pos hu]
          cases hrow : AMap.find u s.word_to_document_id_to_term_frequency with
          | none => simp
          | some row =>
            rw [pruneErase_some]
            by_cases hempty : AMap.eraseKey j row = []
            · rw [if_pos hempty]
              simp
            · rw [if_neg hempty]
              simp only [Option.some_bind]
              exact AMap.find_eraseKey_self j row
        · rw [if_neg hu]
          have hold := hI.1 u j
          unfold optTf docWf at hold
          rw [hfind] at hold
          simp only [Option.some_bind] at hold
          rw [hold]
          cases hwf : AMap.find u dd.word_frequencies with
          | none => rfl
          | some tf =>
            exact absurd (AMap.mem_keys_of_find u tf dd.word_frequencies hwf) hu
      · rw [AMap.find_eraseKey_ne id j _ hj]
        by_cases hu : u ∈ AMap.keys dd.word_frequencies
        · rw [if_pos hu, pruneErase_bind_ne id j _ hj]
          exact hI.1 u j
        · rw [if_neg hu]
          exact hI.1 u j
    · intro u row hrow
      rw [hix, find_removeFold] at hrow
      by_cases hu : u ∈ AMap.keys dd.word_frequencies
      · rw [if_pos hu] at hrow
        cases hfu : AMap.find u s.word_to_document_id_to_term_frequency with
        | none =>
          rw [hfu] at hrow
          exact absurd hrow (by simp)
        | some row₀ =>
          rw [hfu, pruneErase_some] at hrow
          by_cases hempty : AMap.eraseKey id row₀ = []
          · rw [if_pos hempty] at hrow
            exact absurd hrow (by simp)
          · rw [if_neg hempty] at hrow
            cases hrow
            exact hempty
      · rw [if_neg hu] at hrow
        exact hI.2 u row hrow

/-- The states reachable from a freshly constructed server by the public
operations. -/
inductive Reachable : Server → Prop where
  | init (stop : Finset String) : Reachable (initServer stop)
  | add (s : Server) (id : Int) (text : String) (st : DocumentStatus)
      (ratings : List Int) : Reachable s →
      Reachable (addDocument s id text st ratings).2
  | remove (s : Server) (id : Int) : Reachable s →
      Reachable (removeDocument s id)
  | queryTop (s : Server) (q : String)
      (p : Int → DocumentStatus → Int → Bool) : Reachable s →
      Reachable (findTopDocuments s q p).2
  | queryMatch (s : Server) (q : String) (id : Int) : Reachable s →
      Reachable (matchDocument s q id).2

theorem inv_init (stop : Finset String) : Inv (initServer stop) := by
  constructor
  · intro w id
    rfl
  · intro w row hrow
    exact absurd hrow (by simp [initServer])

theorem reachable_inv (s : Server) (h : Reachable s) : Inv s := by
  induction h with
  | init stop => exact inv_init stop
  | add s id text st ratings _ ih => exact inv_preserved_add s id text st ratings ih
  | remove s id _ ih => exact inv_preserved_remove s id ih
  | queryTop s q p _ ih =>
    rw [findTopDocuments_state]
    exact ih
  | queryMatch s q id _ ih =>
    rw [matchDocument_state]
    exact ih

/-- C8: in every reachable state, a word is a key of the inverted index iff
at least one live document contains it, and no index row is empty. -/
theorem index_iff_live_document (s : Server) (h : Reachable s) :
    (∀ w, (AMap.find w s.word_to_document_id_to_term_frequency).isSome = true ↔
        ∃ id dd, AMap.find id s.document_id_to_document_data = some dd ∧
          (AMap.find w dd.word_frequencies).isSome = true) ∧
      ∀ w row, AMap.find w s.word_to_document_id_to_term_frequency = some row →
        row ≠ [] := by
  have hI := reachable_inv s h
  refine ⟨fun w => ⟨?_, ?_⟩, hI.2⟩
  · intro hsome
    obtain ⟨row, hrow⟩ := Option.isSome_iff_exists.mp hsome
    have hne := hI.2 w row hrow
    obtain ⟨⟨j, tf⟩, rest, hcons⟩ := List.exists_cons_of_ne_nil hne
    have hj : AMap.find j row = some tf := by
      rw [hcons]
      simp
    have hopt : optTf s w j = some tf := by
      unfold optTf
      rw [hrow]
      simpa using hj
    have hdw : docWf s j w = some tf := by
      rw [← hI.1 w j]
      exact hopt
    unfold docWf at hdw
    obtain ⟨dd, hdd, hwf⟩ := Option.bind_eq_some.mp hdw
    exact ⟨j, dd, hdd, by simp [hwf]⟩
  · rintro ⟨id, dd, hdd, hwf⟩
    obtain ⟨tf, htf⟩ := Option.isSome_iff_exists.mp hwf
    have hdw : docWf s id w = some tf := by
      unfold docWf
      rw [hdd]
      simpa using htf
    have hopt : optTf s w id = some tf := by
      rw [hI.1 w id]
      exact hdw
    unfold optTf at hopt
    obtain ⟨row, hrow, _⟩ := Option.bind_eq_some.mp hopt
    simp [hrow]

/-- Witness for C8 at a concrete reachable state and word. -/
theorem index_iff_live_document_witness :
    (AMap.find "a"
        (initServer ∅).word_to_document_id_to_term_frequency).isSome = true ↔
      ∃ id dd,
        AMap.find id (initServer ∅).document_id_to_document_data = some dd ∧
          (AMap.find "a" dd.word_frequencies).isSome = true :=
  (index_iff_live_document (initServer ∅) (Reachable.init ∅)).1 "a"

/-! ## Ranking lemmas -/

theorem insertSorted_perm {α : Type} (cmp : α → α → Bool) (x : α) (l : List α) :
    (insertSorted cmp x l).Perm (x :: l) := by
  induction l with
  | nil => exact List.Perm.refl _
  | cons y ys ih =>
    unfold insertSorted
    by_cases h : cmp x y = true
    · rw [if_pos h]
    · rw [if_neg h]
      exact (ih.cons y).trans (List.Perm.swap x y ys)

theorem sortByCmp_perm {α : Type} (cmp : α → α → Bool) (l : List α) :
    (sortByCmp cmp l).Perm l := by
  induction l with
  | nil => exact List.Perm.refl _
  | cons x xs ih =>
    unfold sortByCmp
    exact (insertSorted_perm cmp x _).trans (ih.cons x)

theorem mem_sortByCmp {α : Type} (cmp : α → α → Bool) (x : α) (l : List α) :
    x ∈ sortByCmp cmp l ↔ x ∈ l :=
  (sortByCmp_perm cmp l).mem_iff

theorem rowOf_nonempty_find (s : Server) (w : String) (id : Int)
    (h : (AMap.find id (rowOf s w)).isSome = true) :
    (AMap.find w s.word_to_document_id_to_term_frequency).isSome = true := by
  by_contra hn
  have hnone : AMap.find w s.word_to_document_id_to_term_frequency = none :=
    Option.not_isSome_iff_eq_none.mp hn
  have : rowOf s w = [] := by
    unfold rowOf
    rw [hnone]
    rfl
  rw [this] at h
  exact absurd h (by simp)

/-- C3: every document in the result of `FindAllDocuments` carries exactly
the relevance `Σ ln(total_live_documents / documents_containing_word) · tf`
over the plus words whose index row contains the document, and a document
containing none of the plus words is absent from the result entirely. -/
theorem findAllDocuments_relevance (s : Server) (q : Query) :
    (∀ d ∈ findAllDocuments s q,
      d.relevance =
        Finset.sum (q.plus_words.filter
            (fun w => (AMap.find d.id (rowOf s w)).isSome = true))
          (fun w =>
            Real.log ((getDocumentCount s : ℝ) / ((rowOf s w).length : ℝ)) *
              (((AMap.find d.id (rowOf s w)).getD 0 : ℚ) : ℝ))) ∧
      ∀ id : Int, (∀ w ∈ q.plus_words, AMap.find id (rowOf s w) = none) →
        ∀ d ∈ findAllDocuments s q, d.id ≠ id := by
  constructor
  · intro d hd
    unfold findAllDocuments at hd
    obtain ⟨i, _, hdi⟩ := List.mem_map.mp hd
    have hrel : d.relevance = relevanceOf s q i := by rw [← hdi]
    have hid : d.id = i := by rw [← hdi]
    rw [hrel, hid]
    unfold relevanceOf
    have hsub : q.plus_words.filter
        (fun w => (AMap.find i (rowOf s w)).isSome = true) ⊆ plusPresent s q := by
      intro w hw
      obtain ⟨hwq, hwsome⟩ := Finset.mem_filter.mp hw
      exact Finset.mem_filter.mpr ⟨hwq, rowOf_nonempty_find s w i hwsome⟩
    have hzero : ∀ w ∈ plusPresent s q,
        w ∉ q.plus_words.filter
          (fun w => (AMap.find i (rowOf s w)).isSome = true) →
        (match AMap.find i (rowOf s w) with
          | some tf => computeWordInverseDocumentFrequency s w * (tf : ℝ)
          | none => 0) = 0 := by
      intro w hw hnw
      have hwq : w ∈ q.plus_words := (Finset.mem_filter.mp hw).1
      cases hfi : AMap.find i (rowOf s w) with
      | none => rfl
      | some tf =>
        exact absurd (Finset.mem_filter.mpr ⟨hwq, by simp [hfi]⟩) hnw
    rw [← Finset.sum_subset hsub hzero]
    refine Finset.sum_congr rfl ?_
    intro w hw
    have hwsome := (Finset.mem_filter.mp hw).2
    obtain ⟨tf, htf⟩ := Option.isSome_iff_exists.mp hwsome
    rw [htf]
    unfold computeWordInverseDocumentFrequency
    simp
  · intro id hnone d hd hdid
    unfold findAllDocuments at hd
    obtain ⟨i, hi, hdi⟩ := List.mem_map.mp hd
    have hid : d.id = i := by rw [← hdi]
    rw [hid] at hdid
    subst hdid
    unfold resultIdList at hi
    rw [mem_sortByCmp] at hi
    have hfm := List.mem_filter.mp hi
    have hb := hfm.2
    rw [Bool.and_eq_true] at hb
    have hex := of_decide_eq_true hb.1
    obtain ⟨w, hwq, hwsome⟩ := hex
    rw [hnone w hwq] at hwsome
    exact absurd hwsome (by simp)

/-- A one-document server used by concrete witnesses. -/
def serverOneDoc : Server :=
  ⟨∅, {"a"}, [("a", [(1, 1)])], [(1, ⟨5, DocumentStatus.ACTUAL, [("a", 1)]⟩)],
    {1}, none⟩

/-- Witness for C3 at a concrete one-document server. -/
theorem findAllDocuments_relevance_witness :
    (Document.mk 1 (relevanceOf serverOneDoc ⟨{"a"}, ∅⟩ 1) 5).relevance =
      Finset.sum ((Query.mk {"a"} ∅).plus_words.filter
          (fun w => (AMap.find 1 (rowOf serverOneDoc w)).isSome = true))
        (fun w =>
          Real.log ((getDocumentCount serverOneDoc : ℝ) /
              ((rowOf serverOneDoc w).length : ℝ)) *
            (((AMap.find 1 (rowOf serverOneDoc w)).getD 0 : ℚ) : ℝ)) :=
  (findAllDocuments_relevance serverOneDoc ⟨{"a"}, ∅⟩).1
    (Document.mk 1 (relevanceOf serverOneDoc ⟨{"a"}, ∅⟩ 1) 5)
    (by
      have h : resultIdList serverOneDoc ⟨{"a"}, ∅⟩ = [1] := by decide
      unfold findAllDocuments
      rw [h]
      exact List.mem_singleton.mpr rfl)

/-! ## Sorting in FindTopDocuments -/

/-- The adjacent-order guarantee of the result sort: relevance strictly
descending across a gap of at least `kAccuracy`, rating descending inside a
tie. -/
def RankOrder (a b : Document) : Prop :=
  (|a.relevance - b.relevance| < ((kAccuracy : ℚ) : ℝ) → b.rating ≤ a.rating) ∧
    (¬ |a.relevance - b.relevance| < ((kAccuracy : ℚ) : ℝ) →
      b.relevance < a.relevance)

theorem docCmp_eq_true_iff (a b : Document) :
    docCmp a b = true ↔
      (|a.relevance - b.relevance| < ((kAccuracy : ℚ) : ℝ) ∧
          b.rating < a.rating) ∨
        (¬ |a.relevance - b.relevance| < ((kAccuracy : ℚ) : ℝ) ∧
          b.relevance < a.relevance) := by
  unfold docCmp
  by_cases h : |a.relevance - b.relevance| < ((kAccuracy : ℚ) : ℝ)
  · rw [if_pos h]
    simp [h]
  · rw [if_neg h]
    simp [h]

theorem docCmp_asymm (a b : Document) (h : docCmp a b = true) :
    docCmp b a = false := by
  cases hba : docCmp b a with
  | false => rfl
  | true =>
    exfalso
    rw [docCmp_eq_true_iff] at h hba
    rw [abs_sub_comm b.relevance a.relevance] at hba
    rcases h with ⟨htie, hrat⟩ | ⟨hntie, hrel⟩
    · rcases hba with ⟨_, hrat'⟩ | ⟨hntie', _⟩
      · exact absurd hrat (not_lt.mpr (le_of_lt hrat'))
      · exact hntie' htie
    · rcases hba with ⟨htie', _⟩ | ⟨_, hrel'⟩
      · exact hntie htie'
      · exact absurd hrel (not_lt.mpr (le_of_lt hrel'))

theorem rankOrder_of_not_docCmp (a b : Document) (h : docCmp b a = false) :
    RankOrder a b := by
  constructor
  · intro htie
    by_contra hrat
    have hT : docCmp b a = true := by
      rw [docCmp_eq_true_iff]
      left
      exact ⟨by rw [abs_sub_comm]; exact htie, not_le.mp hrat⟩
    rw [h] at hT
    exact absurd hT (by simp)
  · intro hntie
    by_contra hrel
    have hle : a.relevance ≤ b.relevance := not_lt.mp hrel
    have hne : a.relevance ≠ b.relevance := by
      intro heq
      apply hntie
      rw [heq, sub_self, abs_zero]
      norm_num [kAccuracy]
    have hT : docCmp b a = true := by
      rw [docCmp_eq_true_iff]
      right
      exact ⟨by rw [abs_sub_comm]; exact hntie, lt_of_le_of_ne hle hne⟩
    rw [h] at hT
    exact absurd hT (by simp)

theorem chain_insertSorted {α : Type} (cmp : α → α → Bool)
    (hasym : ∀ a b, cmp a b = true → cmp b a = false) (x : α) (l : List α)
    (hl : l.Chain' (fun a b => cmp b a = false)) :
    (insertSorted cmp x l).Chain' (fun a b => cmp b a = false) := by
  induction l with
  | nil => simp [insertSorted]
  | cons y ys ih =>
    unfold insertSorted
    by_cases h : cmp x y = true
    · rw [if_pos h]
      exact List.chain'_cons.mpr ⟨hasym x y h, hl⟩
    · rw [if_neg h]
      have hfalse : cmp x y = false := by simpa using h
      have hys := hl.tail
      refine List.chain'_cons'.mpr ⟨?_, ih hys⟩
      intro z hz
      cases ys with
      | nil =>
        simp [insertSorted] at hz
        rw [← hz]
        exact hfalse
      | cons y' ys' =>
        unfold insertSorted at hz
        by_cases h' : cmp x y' = true
        · rw [if_pos h'] at hz
          simp at hz
          rw [← hz]
          exact hfalse
        · rw [if_neg h'] at hz
          simp at hz
          rw [← hz]
          exact (List.chain'_cons.mp hl).1

theorem chain_sortByCmp {α : Type} (cmp : α → α → Bool)
    (hasym : ∀ a b, cmp a b = true → cmp b a = false) (l : List α) :
    (sortByCmp cmp l).Chain' (fun a b => cmp b a = false) := by
  induction l with
  | nil => simp [sortByCmp]
  | cons x xs ih =>
    unfold sortByCmp
    exact chain_insertSorted cmp hasym x _ ih

theorem findTopDocuments_ok (s : Server) (q : String)
    (pred : Int → DocumentStatus → Int → Bool)
    (h : parseSlotTokens s.stop_words (splitIntoWords q) s.exception_slot = none) :
    (findTopDocuments s q pred).1 =
      .ok ((sortByCmp docCmp
        ((findAllDocuments s (parseQuery s.stop_words q)).filter (fun d =>
          (AMap.find d.id s.document_id_to_document_data).elim false
            (fun dd => pred d.id dd.status dd.rating)))).take
        kMaxResultDocumentCount) := by
  unfold findTopDocuments
  rw [h]

/-- C4 amended: every successful `FindTopDocuments` result has at most 5
documents, contains only documents accepted by the predicate, and each
ADJACENT pair is ordered by descending relevance, with descending rating
when the two relevances differ by less than `1e-6`.  (The pairwise form of
the ordering claim fails — see the counterexample — because the comparator
is not transitive across the `1e-6` tie threshold.) -/
theorem findTopDocuments_ranked (s : Server) (q : String)
    (pred : Int → DocumentStatus → Int → Bool) (l : List Document)
    (h : (findTopDocuments s q pred).1 = .ok l) :
    l.length ≤ kMaxResultDocumentCount ∧
      (∀ d ∈ l, (AMap.find d.id s.document_id_to_document_data).elim false
          (fun dd => pred d.id dd.status dd.rating) = true) ∧
      l.Chain' RankOrder := by
  unfold findTopDocuments at h
  cases hslot : parseSlotTokens s.stop_words (splitIntoWords q)
      s.exception_slot with
  | some e =>
    rw [hslot] at h
    exact absurd h (by simp)
  | none =>
    rw [hslot] at h
    simp only [Except.ok.injEq] at h
    subst h
    refine ⟨?_, ?_, ?_⟩
    · rw [List.length_take]
      exact min_le_left _ _
    · intro d hd
      have hd' := List.take_subset _ _ hd
      rw [mem_sortByCmp] at hd'
      exact (List.mem_filter.mp hd').2
    · have hchain := chain_sortByCmp docCmp docCmp_asymm
        ((findAllDocuments s (parseQuery s.stop_words q)).filter (fun d =>
          (AMap.find d.id s.document_id_to_document_data).elim false
            (fun dd => pred d.id dd.status dd.rating)))
      have htake := hchain.take kMaxResultDocumentCount
      exact List.Chain'.imp (fun a b hab => rankOrder_of_not_docCmp a b hab) htake

/-- Witness for the amended C4: a concrete empty result satisfies all three
conclusions. -/
theorem findTopDocuments_ranked_witness :
    ([] : List Document).length ≤ kMaxResultDocumentCount ∧
      (∀ d ∈ ([] : List Document),
        (AMap.find d.id (initServer ∅).document_id_to_document_data).elim false
          (fun dd => (fun _ _ _ => true) d.id dd.status dd.rating) = true) ∧
      ([] : List Document).Chain' RankOrder :=
  findTopDocuments_ranked (initServer ∅) "x" (fun _ _ _ => true) []
    (by
      rw [findTopDocuments_ok (initServer ∅) "x" (fun _ _ _ => true) (by decide)]
      have hres : resultIdList (initServer ∅)
          (parseQuery (initServer ∅).stop_words "x") = [] := by decide
      unfold findAllDocuments
      rw [hres]
      rfl)

/-! ## A pairwise-ordering counterexample for the result sort -/

/-- The list a successful `FindTopDocuments` call returns (empty on error). -/
def okList (r : Except ErrKind (List Document)) : List Document :=
  match r with
  | .ok l => l
  | .error _ => []

/-- A server with three matching documents whose relevances sit `~0.7e-6`
apart: documents 1 and 2 tie, 2 and 3 tie, but 1 and 3 do not, so the sort
comparator is not transitive on this input. -/
def serverCycle : Server :=
  ⟨∅, {"a", "b", "c"},
   [("a", [(1, 1/2000000)]), ("b", [(2, 1/1000000)]), ("c", [(3, 3/2000000)])],
   [(1, ⟨3, DocumentStatus.ACTUAL, [("a", 1/2000000)]⟩),
    (2, ⟨2, DocumentStatus.ACTUAL, [("b", 1/1000000)]⟩),
    (3, ⟨1, DocumentStatus.ACTUAL, [("c", 3/2000000)]⟩),
    (4, ⟨0, DocumentStatus.ACTUAL, []⟩)],
   {1, 2, 3, 4}, none⟩

/-- The parsed query `"a b c"` on `serverCycle`. -/
def qCycle : Query := parseQuery serverCycle.stop_words "a b c"

/-- The scored documents of `serverCycle` for `qCycle`. -/
noncomputable def dCycle (i : Int) : Document :=
  ⟨i, relevanceOf serverCycle qCycle i, ratingOf serverCycle i⟩

theorem plusPresentCycle : plusPresent serverCycle qCycle = {"a", "b", "c"} := by
  decide

theorem relCycle1 :
    relevanceOf serverCycle qCycle 1 = Real.log 4 * ((1/2000000 : ℚ) : ℝ) := by
  unfold relevanceOf
  rw [plusPresentCycle]
  rw [Finset.sum_insert (by decide), Finset.sum_insert (by decide),
    Finset.sum_singleton]
  rw [show AMap.find (1 : ℤ) (rowOf serverCycle "a") =
    some ((1/2000000 : ℚ)) from rfl]
  rw [show AMap.find (1 : ℤ) (rowOf serverCycle "b") = none from by decide]
  rw [show AMap.find (1 : ℤ) (rowOf serverCycle "c") = none from by decide]
  simp only []
  unfold computeWordInverseDocumentFrequency
  rw [show getDocumentCount serverCycle = 4 from rfl]
  rw [show (rowOf serverCycle "a").length = 1 from rfl]
  norm_num

theorem relCycle2 :
    relevanceOf serverCycle qCycle 2 = Real.log 4 * ((1/1000000 : ℚ) : ℝ) := by
  unfold relevanceOf
  rw [plusPresentCycle]
  rw [Finset.sum_insert (by decide), Finset.sum_insert (by decide),
    Finset.sum_singleton]
  rw [show AMap.find (2 : ℤ) (rowOf serverCycle "a") = none from by decide]
  rw [show AMap.find (2 : ℤ) (rowOf serverCycle "b") =
    some ((1/1000000 : ℚ)) from rfl]
  rw [show AMap.find (2 : ℤ) (rowOf serverCycle "c") = none from by decide]
  simp only []
  unfold computeWordInverseDocumentFrequency
  rw [show getDocumentCount serverCycle = 4 from rfl]
  rw [show (rowOf serverCycle "b").length = 1 from rfl]
  norm_num

theorem relCycle3 :
    relevanceOf serverCycle qCycle 3 = Real.log 4 * ((3/2000000 : ℚ) : ℝ) := by
  unfold relevanceOf
  rw [plusPresentCycle]
  rw [Finset.sum_insert (by decide), Finset.sum_insert (by decide),
    Finset.sum_singleton]
  rw [show AMap.find (3 : ℤ) (rowOf serverCycle "a") = none from by decide]
  rw [show AMap.find (3 : ℤ) (rowOf serverCycle "b") = none from by decide]
  rw [show AMap.find (3 : ℤ) (rowOf serverCycle "c") =
    some ((3/2000000 : ℚ)) from rfl]
  simp only []
  unfold computeWordInverseDocumentFrequency
  rw [show getDocumentCount serverCycle = 4 from rfl]
  rw [show (rowOf serverCycle "c").length = 1 from rfl]
  norm_num

theorem log4_bounds : 1 < Real.log 4 ∧ Real.log 4 < 2 := by
  have h4 : Real.log 4 = 2 * Real.log 2 := by
    rw [show (4 : ℝ) = 2 ^ (2 : ℕ) by norm_num, Real.log_pow]
    push_cast
    ring
  constructor
  · nlinarith [Real.log_two_gt_d9]
  · nlinarith [Real.log_two_lt_d9]

theorem epsCast : ((kAccuracy : ℚ) : ℝ) = 1 / 1000000 := by
  norm_num [kAccuracy]

theorem docCmp12 : docCmp (dCycle 1) (dCycle 2) = true := by
  unfold docCmp
  rw [if_pos ?tie]
  · rfl
  case tie =>
    show |(dCycle 1).relevance - (dCycle 2).relevance| < _
    rw [show (dCycle 1).relevance = relevanceOf serverCycle qCycle 1 from rfl,
      show (dCycle 2).relevance = relevanceOf serverCycle qCycle 2 from rfl,
      relCycle1, relCycle2, epsCast]
    rw [abs_lt]
    constructor
    · nlinarith [log4_bounds.1, log4_bounds.2]
    · nlinarith [log4_bounds.1, log4_bounds.2]

theorem docCmp23 : docCmp (dCycle 2) (dCycle 3) = true := by
  unfold docCmp
  rw [if_pos ?tie]
  · rfl
  case tie =>
    show |(dCycle 2).relevance - (dCycle 3).relevance| < _
    rw [show (dCycle 2).relevance = relevanceOf serverCycle qCycle 2 from rfl,
      show (dCycle 3).relevance = relevanceOf serverCycle qCycle 3 from rfl,
      relCycle2, relCycle3, epsCast]
    rw [abs_lt]
    constructor
    · nlinarith [log4_bounds.1, log4_bounds.2]
    · nlinarith [log4_bounds.1, log4_bounds.2]

theorem findAllCycle :
    findAllDocuments serverCycle qCycle = [dCycle 1, dCycle 2, dCycle 3] := by
  unfold findAllDocuments
  rw [show resultIdList serverCycle qCycle = [1, 2, 3] from by decide]
  rfl

theorem sortCycle :
    sortByCmp docCmp [dCycle 1, dCycle 2, dCycle 3] =
      [dCycle 1, dCycle 2, dCycle 3] := by
  have h2 : insertSorted docCmp (dCycle 2) [dCycle 3] = [dCycle 2, dCycle 3] := by
    unfold insertSorted
    rw [if_pos docCmp23]
  have h1 : insertSorted docCmp (dCycle 1) [dCycle 2, dCycle 3] =
      [dCycle 1, dCycle 2, dCycle 3] := by
    unfold insertSorted
    rw [if_pos docCmp12]
  show insertSorted docCmp (dCycle 1)
      (insertSorted docCmp (dCycle 2) (insertSorted docCmp (dCycle 3) [])) = _
  rw [show insertSorted docCmp (dCycle 3) [] = [dCycle 3] from rfl, h2, h1]

/-- Counterexample to C4 as stated: on `serverCycle` with query `"a b c"`
and the all-accepting predicate, the returned sequence is
`[doc 1, doc 2, doc 3]`, but documents 1 and 3 differ in relevance by more
than `1e-6` with document 3 the more relevant, so the pair `(1, 3)` violates
"sorted descending by relevance / ties by descending rating" — no ordering
can satisfy it pairwise, because the comparator cycles on this input. -/
theorem findTopDocuments_pairwise_counterexample :
    ¬ (okList (findTopDocuments serverCycle "a b c"
        (fun _ _ _ => true)).1).Pairwise RankOrder := by
  have heval : (findTopDocuments serverCycle "a b c" (fun _ _ _ => true)).1 =
      .ok [dCycle 1, dCycle 2, dCycle 3] := by
    rw [findTopDocuments_ok serverCycle "a b c" (fun _ _ _ => true) (by decide)]
    rw [show parseQuery serverCycle.stop_words "a b c" = qCycle from rfl]
    rw [findAllCycle]
    show Except.ok ((sortByCmp docCmp
      [dCycle 1, dCycle 2, dCycle 3]).take kMaxResultDocumentCount) = _
    rw [sortCycle]
    rfl
  rw [heval]
  show ¬ ([dCycle 1, dCycle 2, dCycle 3]).Pairwise RankOrder
  intro hpw
  have h13 : RankOrder (dCycle 1) (dCycle 3) :=
    (List.pairwise_cons.mp hpw).1 (dCycle 3) (by simp)
  have hr1 : (dCycle 1).relevance = Real.log 4 * ((1/2000000 : ℚ) : ℝ) := relCycle1
  have hr3 : (dCycle 3).relevance = Real.log 4 * ((3/2000000 : ℚ) : ℝ) := relCycle3
  have hntie : ¬ |(dCycle 1).relevance - (dCycle 3).relevance| <
      ((kAccuracy : ℚ) : ℝ) := by
    rw [hr1, hr3, epsCast, abs_lt]
    intro hcon
    nlinarith [log4_bounds.1, hcon.1]
  have hlt := h13.2 hntie
  rw [hr1, hr3] at hlt
  nlinarith [log4_bounds.1, hlt]

end SearchSrv
